import Mathlib

/-!
Verification of the grid-based pathfinding core of a third-person shooter
(`src/world/nav_grid.rs` and the staggered path scheduler of `src/enemy.rs`).

The Rust code is shallowly embedded: `f32` world coordinates become exact
rationals (`ℚ`), `usize`/`u32` become `ℕ` (with explicit `% 2^32` where the
source uses wrapping arithmetic), `Vec<T>` becomes `List`, `HashMap` becomes a
front-consed association list with first-match lookup (which models insert-as-
overwrite), and `Option`-returning fallible code stays in `Option`.
-/

attribute [local semireducible] Rat.add Rat.mul Rat.sub Rat.inv Rat.ofScientific

/-- World-space vector, mirroring bevy `Vec3` with exact rational coordinates. -/
structure Vec3 where
  x : ℚ
  y : ℚ
  z : ℚ
deriving DecidableEq

instance : Inhabited Vec3 := ⟨⟨0, 0, 0⟩⟩

namespace Vec3

/-- Componentwise subtraction, mirroring `Vec3` subtraction. -/
def sub (a b : Vec3) : Vec3 := ⟨a.x - b.x, a.y - b.y, a.z - b.z⟩

/-- Componentwise addition. -/
def add (a b : Vec3) : Vec3 := ⟨a.x + b.x, a.y + b.y, a.z + b.z⟩

/-- Squared euclidean length; the source's `length()` is the square root of this. -/
def lengthSq (a : Vec3) : ℚ := a.x * a.x + a.y * a.y + a.z * a.z

/-- Linear interpolation `a.lerp(b, t) = a + (b - a) * t`, as in bevy. -/
def lerp (a b : Vec3) (t : ℚ) : Vec3 :=
  ⟨a.x + (b.x - a.x) * t, a.y + (b.y - a.y) * t, a.z + (b.z - a.z) * t⟩

end Vec3

/-- Grid cell coordinates `(x, y)`, the Rust `(usize, usize)` pair. -/
abbrev Cell := ℕ × ℕ

/-- Truncation toward zero, the semantics of Rust's `as i32` cast on a float. -/
def ratTrunc (q : ℚ) : ℤ := if 0 ≤ q then ⌊q⌋ else ⌈q⌉

/-- Navigation grid for A* pathfinding (`NavGrid` in `nav_grid.rs`).
`grid` is the dense row-major walkability bitmap (`true` = walkable), and
`offset` is the world position of the grid's `(0,0)` corner. -/
structure NavGrid where
  width : ℕ
  height : ℕ
  cell_size : ℚ
  grid : List Bool
  offset : ℚ × ℚ
deriving DecidableEq

namespace NavGrid

/-- `NavGrid::new`: a fully walkable `width × height` grid centered at the
world origin. -/
def new (width height : ℕ) (cell_size : ℚ) : NavGrid :=
  { width := width
    height := height
    cell_size := cell_size
    grid := List.replicate (width * height) true
    offset := (-(width * cell_size) / 2, -(height * cell_size) / 2) }

/-- `world_to_grid`: world position to cell coordinates; the source casts
`(pos - offset) / cell_size` with `as i32` (truncation toward zero) and then
bounds-checks against `[0, width) × [0, height)`. -/
def world_to_grid (g : NavGrid) (pos : Vec3) : Option Cell :=
  let x : ℤ := ratTrunc ((pos.x - g.offset.1) / g.cell_size)
  let y : ℤ := ratTrunc ((pos.z - g.offset.2) / g.cell_size)
  if 0 ≤ x ∧ x < (g.width : ℤ) ∧ 0 ≤ y ∧ y < (g.height : ℤ) then
    some (x.toNat, y.toNat)
  else
    none

/-- `grid_to_world`: the world-space center of a cell. -/
def grid_to_world (g : NavGrid) (x y : ℕ) : Vec3 :=
  ⟨g.offset.1 + ((x : ℚ) + 1/2) * g.cell_size, 0,
   g.offset.2 + ((y : ℚ) + 1/2) * g.cell_size⟩

/-- `is_walkable`: `false` for any out-of-range coordinate, otherwise the
bitmap entry at row-major index `y * width + x`. -/
def is_walkable (g : NavGrid) (x y : ℕ) : Bool :=
  if x < g.width ∧ y < g.height then g.grid.getD (y * g.width + x) false
  else false

/-- `set_obstacle`: mark a single in-range cell as not walkable. -/
def set_obstacle (g : NavGrid) (x y : ℕ) : NavGrid :=
  if x < g.width ∧ y < g.height then
    { g with grid := g.grid.set (y * g.width + x) false }
  else g

/-- The inclusive range `lo..=hi` of the Rust `for` loops (empty when `lo > hi`). -/
def rangeIncl (lo hi : ℕ) : List ℕ := List.range' lo (hi + 1 - lo)

/-- `set_obstacle_rect`: mark every cell of `min..=max.min(bound - 1)` (both
axes) as not walkable, exactly the source's nested loops. -/
def set_obstacle_rect (g : NavGrid) (min_x min_y max_x max_y : ℕ) : NavGrid :=
  { g with
    grid :=
      (rangeIncl min_y (min max_y (g.height - 1))).foldl (fun gr y =>
        (rangeIncl min_x (min max_x (g.width - 1))).foldl (fun gr2 x =>
          gr2.set (y * g.width + x) false) gr) g.grid }

/-- `mark_obstacle_world`: rasterize an axis-aligned world rectangle given by a
center and half extents. The source converts both corners with `world_to_grid`
and does nothing unless both conversions succeed. -/
def mark_obstacle_world (g : NavGrid) (pos half_extents : Vec3) : NavGrid :=
  let min_world : Vec3 := pos.sub ⟨half_extents.x, 0, half_extents.z⟩
  let max_world : Vec3 := pos.add ⟨half_extents.x, 0, half_extents.z⟩
  match g.world_to_grid min_world, g.world_to_grid max_world with
  | some c_min, some c_max => g.set_obstacle_rect c_min.1 c_min.2 c_max.1 c_max.2
  | _, _ => g

end NavGrid

namespace NavGrid

/-- Square of the source's `heuristic` (which returns the euclidean distance
`sqrt(dx^2 + dy^2)` between cell coordinates). The search carries this exact
radicand; the heuristic value itself is `Real.sqrt` of it. -/
def heuristicSq (a b : Cell) : ℚ :=
  ((a.1 : ℚ) - (b.1 : ℚ))^2 + ((a.2 : ℚ) - (b.2 : ℚ))^2

/-- The 8 candidate directions of `get_neighbors`, in source order. -/
def directions : List (ℤ × ℤ) :=
  [(0, 1), (0, -1), (1, 0), (-1, 0), (1, 1), (-1, 1), (1, -1), (-1, -1)]

/-- `get_neighbors`: in-bounds walkable 8-neighbors of a cell; a diagonal
neighbor is included only when both cardinal-adjacent cells are walkable
(no corner cutting). -/
def get_neighbors (g : NavGrid) (pos : Cell) : List Cell :=
  directions.flatMap fun d =>
    let nx : ℤ := (pos.1 : ℤ) + d.1
    let ny : ℤ := (pos.2 : ℤ) + d.2
    if 0 ≤ nx ∧ nx < (g.width : ℤ) ∧ 0 ≤ ny ∧ ny < (g.height : ℤ) then
      if g.is_walkable nx.toNat ny.toNat then
        if d.1 ≠ 0 ∧ d.2 ≠ 0 then
          if g.is_walkable nx.toNat pos.2 ∧ g.is_walkable pos.1 ny.toNat then
            [(nx.toNat, ny.toNat)]
          else []
        else [(nx.toNat, ny.toNat)]
      else []
    else []

/-- Largest `j ≤ k` with `j * j ≤ n` (`0` when there is none). -/
def natSqrtAux (n : ℕ) : ℕ → ℕ
  | 0 => 0
  | k + 1 => if (k + 1) * (k + 1) ≤ n then k + 1 else natSqrtAux n k

/-- Integer square root `⌊√n⌋`, by downward scan (structural recursion so that
it reduces inside the kernel). -/
def natSqrt (n : ℕ) : ℕ := natSqrtAux n n

theorem natSqrtAux_spec (n : ℕ) : ∀ k, natSqrtAux n k * natSqrtAux n k ≤ n ∧
    ∀ j, j ≤ k → j * j ≤ n → j ≤ natSqrtAux n k := by
  intro k
  induction k with
  | zero => exact ⟨by simp [natSqrtAux], fun j hj _ => by omega⟩
  | succ k ih =>
    by_cases h : (k + 1) * (k + 1) ≤ n
    · refine ⟨by simp [natSqrtAux, h], fun j hj _ => ?_⟩
      simp only [natSqrtAux, if_pos h]
      omega
    · refine ⟨by simpa [natSqrtAux, h] using ih.1, fun j hj hjn => ?_⟩
      simp only [natSqrtAux, if_neg h]
      rcases Nat.lt_succ_iff_lt_or_eq.mp (Nat.lt_succ_of_le hj) with h' | h'
      · exact ih.2 j (by omega) hjn
      · exact absurd (h' ▸ hjn) h

/-- `natSqrt` is the integer square root. -/
theorem natSqrt_spec (n : ℕ) :
    natSqrt n * natSqrt n ≤ n ∧ n < (natSqrt n + 1) * (natSqrt n + 1) := by
  obtain ⟨h1, h2⟩ := natSqrtAux_spec n n
  unfold natSqrt
  refine ⟨h1, ?_⟩
  by_contra h
  push_neg at h
  have hn : natSqrtAux n n + 1 ≤ n :=
    le_trans (Nat.le_mul_of_pos_left _ (by omega)) h
  have := h2 (natSqrtAux n n + 1) hn h
  omega

/-- Number of interior sample steps of `can_walk_straight`: the source computes
`(dist / (cell_size * 0.5)) as i32` with `dist = sqrt dsq`. For
`cell_size > 0` that truncation equals `natSqrt ⌊dsq / (cell_size / 2)^2⌋`
(floor of a square root of a nonnegative real equals the integer square root of
the floor of the radicand); for `cell_size ≤ 0` the source value is `≤ 0`,
which the `steps <= 1` early exit treats the same as `0`. -/
def walkSteps (g : NavGrid) (dsq : ℚ) : ℕ :=
  if 0 < g.cell_size then natSqrt (Int.toNat ⌊dsq / (g.cell_size / 2)^2⌋)
  else 0

/-- `can_walk_straight`: sample the open segment between two world points at
parameters `i / steps`, `0 < i < steps`, and require every sample to land in an
in-bounds walkable cell; segments with `steps <= 1` are accepted outright. -/
def can_walk_straight (g : NavGrid) (start_p end_p : Vec3) : Bool :=
  let dsq := (end_p.sub start_p).lengthSq
  let steps := g.walkSteps dsq
  if steps ≤ 1 then true
  else
    (List.range' 1 (steps - 1)).all fun i =>
      let t : ℚ := (i : ℚ) / (steps : ℚ)
      let pos := start_p.lerp end_p t
      match g.world_to_grid pos with
      | some c => g.is_walkable c.1 c.2
      | none => false

/-- Inner scan of `simplify_path`: from `j` downward, the first index with a
clear straight segment from `path[i]`, stopping at `i + 1` (structural
recursion on `j`). -/
def findFurthest (g : NavGrid) (path : List Vec3) (i : ℕ) : ℕ → ℕ
  | 0 => 0
  | j + 1 =>
    if i + 1 < j + 1 then
      if can_walk_straight g (path.getD i default) (path.getD (j + 1) default)
      then j + 1
      else findFurthest g path i j
    else j + 1

theorem findFurthest_le (g : NavGrid) (path : List Vec3) (i : ℕ) (j : ℕ) :
    findFurthest g path i j ≤ j := by
  induction j with
  | zero => simp [findFurthest]
  | succ j ih =>
    rw [findFurthest]
    split
    · split
      · exact le_rfl
      · omega
    · exact le_rfl

theorem findFurthest_lt_bound (g : NavGrid) (path : List Vec3) (i : ℕ) (j : ℕ)
    (hj : i + 1 ≤ j) : i + 1 ≤ findFurthest g path i j := by
  induction j with
  | zero => omega
  | succ j ih =>
    rw [findFurthest]
    split
    · split
      · omega
      · exact ih (by omega)
    · omega

/-- Outer loop of `simplify_path`: starting from anchor index `i`, repeatedly
emit the furthest straight-line-reachable waypoint and advance the anchor.
The fuel argument makes the recursion structural; since each round strictly
increases `i`, fuel `path.length - 1 - i` always suffices. -/
def simplifyAux (g : NavGrid) (path : List Vec3) : ℕ → ℕ → List Vec3
  | 0, _ => []
  | fuel + 1, i =>
    if i < path.length - 1 then
      path.getD (findFurthest g path i (path.length - 1)) default ::
        simplifyAux g path fuel (findFurthest g path i (path.length - 1))
    else []

/-- `simplify_path`: paths of length at most 2 are returned unchanged;
otherwise greedy forward string pulling from the first waypoint. -/
def simplify_path (g : NavGrid) (path : List Vec3) : List Vec3 :=
  if path.length ≤ 2 then path
  else path.getD 0 default :: simplifyAux g path path.length 0

/-- One perimeter ring of `find_nearest_walkable`: scan `dx` then `dy` over
`-radius..=radius`, skip non-perimeter offsets, and return the first in-bounds
walkable cell. -/
def ringCheck (g : NavGrid) (pos : Cell) (radius : ℕ) : Option Cell :=
  ((List.range (2 * radius + 1)).map fun (a : ℕ) =>
      (a : ℤ) - (radius : ℤ)).findSome? fun dx =>
    (((List.range (2 * radius + 1)).map fun (a : ℕ) =>
        (a : ℤ) - (radius : ℤ)).findSome? fun dy =>
      if dx.natAbs ≠ radius ∧ dy.natAbs ≠ radius then none
      else
        let nx : ℤ := (pos.1 : ℤ) + dx
        let ny : ℤ := (pos.2 : ℤ) + dy
        if 0 ≤ nx ∧ nx < (g.width : ℤ) ∧ 0 ≤ ny ∧ ny < (g.height : ℤ) then
          if g.is_walkable nx.toNat ny.toNat then some (nx.toNat, ny.toNat)
          else none
        else none)

/-- `find_nearest_walkable`: expanding perimeter search; the source iterates
`for radius in 1..10`, i.e. radii `1..=9`. -/
def find_nearest_walkable (g : NavGrid) (pos : Cell) : Option Cell :=
  (List.range' 1 9).findSome? fun radius => g.ringCheck pos radius

end NavGrid

namespace NavGrid

/-- Whether a step between two cells is diagonal, the condition
`neighbor.0 != current.pos.0 && neighbor.1 != current.pos.1` of `find_path`. -/
def stepIsDiagonal (a b : Cell) : Bool := decide (a.1 ≠ b.1 ∧ a.2 ≠ b.2)

/-- The move cost charged by `find_path`: `1.414` for a diagonal step and
`1.0` for a cardinal step. -/
def move_cost (a b : Cell) : ℚ := if stepIsDiagonal a b then 1.414 else 1

/-- The code-metric cost of a cell route: sum of `move_cost` over consecutive
pairs. -/
def pathCost (l : List Cell) : ℚ :=
  ((l.zip l.tail).map fun s => move_cost s.1 s.2).sum

/-- Number of diagonal steps of a cell route. -/
def diagCount (l : List Cell) : ℕ :=
  (l.zip l.tail).countP fun s => stepIsDiagonal s.1 s.2

/-- Number of cardinal steps of a cell route. -/
def cardCount (l : List Cell) : ℕ :=
  (l.zip l.tail).countP fun s => !stepIsDiagonal s.1 s.2

/-- An exact f-score: the pair `(q, r)` denotes the real number `q + sqrt r`
(`r ≥ 0`), i.e. the accumulated g-score plus the euclidean heuristic. The
source stores the rounded `f32` sum instead. -/
abbrev Score := ℚ × ℚ

/-- Exact comparison `a.1 + sqrt a.2 ≤ b.1 + sqrt b.2` for nonnegative
radicands, by repeated sign analysis and squaring. -/
def scoreLe (a b : Score) : Bool :=
  let d := b.1 - a.1
  if 0 ≤ d then
    let e := a.2 - b.2 - d^2
    if e ≤ 0 then true else decide (e^2 ≤ 4 * d^2 * b.2)
  else
    let e := b.2 - a.2 - d^2
    if e < 0 then false else decide (4 * d^2 * a.2 ≤ e^2)

/-- Node of the A* priority queue. -/
structure Node where
  pos : Cell
  f_score : Score
deriving DecidableEq

/-- Pop a node with minimal f-score (the source's `BinaryHeap` with reversed
`Ord`; tie order there is heap-dependent, modelled here as leftmost minimum). -/
def popMin : List Node → Option (Node × List Node)
  | [] => none
  | n :: ns =>
    match popMin ns with
    | none => some (n, [])
    | some (m, rest) =>
      if scoreLe n.f_score m.f_score then some (n, m :: rest)
      else some (m, n :: rest)

/-- Follow `came_from` links from a cell, with explicit fuel; the source's
`while let Some(&prev) = came_from.get(&current)` loop. -/
def chaseParents (cf : List (Cell × Cell)) : ℕ → Cell → List Cell
  | 0, _ => []
  | fuel + 1, c =>
    match cf.lookup c with
    | none => []
    | some p => p :: chaseParents cf fuel p

/-- `reconstruct_path`: walk `came_from` back from the goal, map cells to their
world centers, reverse, and simplify. One fuel unit more than the number of
`came_from` entries always suffices for the backward walk. -/
def reconstruct_path (g : NavGrid) (cf : List (Cell × Cell)) (current : Cell) :
    List Vec3 :=
  let cells := current :: chaseParents cf (cf.length + 1) current
  g.simplify_path ((cells.map fun c => g.grid_to_world c.1 c.2).reverse)

/-- Search state threaded through the neighbor loop: open list, `came_from`,
and `g_score` (both maps as front-consed association lists). -/
abbrev AState := List Node × List (Cell × Cell) × List (Cell × ℚ)

/-- Body of the neighbor loop of `find_path`: skip closed neighbors, compute
the tentative g-score, and on improvement record parent and score and push the
neighbor. A missing g-score for `current` stands for `f32::MAX`, which the
source's `MAX + move_cost` (still `MAX`) can never improve on, so the state is
left unchanged in that branch. -/
def relaxNeighbor (_g : NavGrid) (end_node current : Cell) (closed : List Cell)
    (st : AState) (nbr : Cell) : AState :=
  if closed.contains nbr then st
  else
    match st.2.2.lookup current with
    | none => st
    | some gc =>
      let tentative_g := gc + move_cost current nbr
      let improves :=
        match st.2.2.lookup nbr with
        | none => true
        | some gn => decide (tentative_g < gn)
      if improves then
        (⟨nbr, (tentative_g, heuristicSq nbr end_node)⟩ :: st.1,
         (nbr, current) :: st.2.1,
         (nbr, tentative_g) :: st.2.2)
      else st

/-- The A* main loop of `find_path`: pop the best node, return the
reconstructed path on reaching the goal, lazily drop stale (already closed)
entries, otherwise close the node and relax its neighbors. The fuel argument
only bounds the iteration count; `find_path` passes more fuel than the loop
can ever consume (every iteration pops one of at most `1 + 8·width·height`
pushed entries). -/
def astarLoop (g : NavGrid) (end_node : Cell) :
    ℕ → List Node → List (Cell × Cell) → List (Cell × ℚ) → List Cell →
    Option (List Vec3)
  | 0, _, _, _, _ => none
  | fuel + 1, open_set, cf, gs, closed =>
    match popMin open_set with
    | none => none
    | some (current, rest) =>
      if current.pos = end_node then some (g.reconstruct_path cf current.pos)
      else if closed.contains current.pos then
        astarLoop g end_node fuel rest cf gs closed
      else
        let closed' := current.pos :: closed
        let st := (g.get_neighbors current.pos).foldl
          (relaxNeighbor g end_node current.pos closed') (rest, cf, gs)
        astarLoop g end_node fuel st.1 st.2.1 st.2.2 closed'

/-- `find_path`: convert both endpoints, fail if the start cell is unwalkable,
retarget an unwalkable goal cell to the nearest walkable cell, and run A*
seeded with the start node. -/
def find_path (g : NavGrid) (start_w end_w : Vec3) : Option (List Vec3) :=
  match g.world_to_grid start_w with
  | none => none
  | some start_node =>
    match g.world_to_grid end_w with
    | none => none
    | some end_node0 =>
      if g.is_walkable start_node.1 start_node.2 then
        match
          (if g.is_walkable end_node0.1 end_node0.2 then some end_node0
           else g.find_nearest_walkable end_node0) with
        | none => none
        | some end_node =>
          astarLoop g end_node (8 * g.width * g.height + 2)
            [⟨start_node, (0, heuristicSq start_node end_node)⟩]
            [] [(start_node, 0)] []
      else none

end NavGrid

/-- The `Zombie` component field relevant to path scheduling (`enemy.rs`); the
movement and combat fields play no role in the scheduling claims. -/
structure Zombie where
  path_update_offset : ℕ

/-- `Zombie::new`: the stagger offset is the constructor argument modulo 20. -/
def Zombie.new (path_offset : ℕ) : Zombie := ⟨path_offset % 20⟩

/-- Value of the `u32` `FrameCounter` after `n` ticks: it starts at `0` and
`increment_frame_counter` applies `wrapping_add(1)` once per tick before the
scheduling pass, so on tick `n` the counter reads `n mod 2^32`. -/
def tick_counter (n : ℕ) : ℕ := n % 2^32

/-- Eligibility test of `update_zombie_paths` on tick `n` for the zombie
spawned with index `i` (spawn code passes `i` to `Zombie::new`): the zombie
recomputes iff its offset equals `frame.0 % 20`. -/
def eligibleAt (n i : ℕ) : Bool :=
  (Zombie.new i).path_update_offset == tick_counter n % 20

theorem eligibleAt_iff (n i : ℕ) :
    eligibleAt n i = true ↔ i % 20 = n % 2^32 % 20 := by
  simp [eligibleAt, Zombie.new, tick_counter]

theorem two_of_each_offset : ∀ r, r < 20 →
    ((Finset.range 40).filter fun i => i % 20 = r).card = 2 := by decide

/-- C7. Staggered scheduling: with 40 agents whose offsets are `i % 20`, on
every tick exactly the two agents whose offset equals the tick counter mod 20
are eligible; and over any window of 20 consecutive ticks during which the
`u32` tick counter does not wrap around, every agent is eligible exactly once.
(The wrap-around restriction is forced: `2^32` is not a multiple of 20, so a
window that crosses the wrap skips some offsets — see the counterexample.) -/
theorem staggered_scheduler_fairness :
    (∀ n : ℕ, ((Finset.range 40).filter fun i => eligibleAt n i = true).card = 2
      ∧ ∀ i, i < 40 → (eligibleAt n i = true ↔ i % 20 = tick_counter n % 20))
    ∧ ∀ a : ℕ, a % 2^32 + 20 < 2^32 → ∀ i, i < 40 →
      ((Finset.Icc (a + 1) (a + 20)).filter fun n => eligibleAt n i = true).card
        = 1 := by
  constructor
  · intro n
    constructor
    · have hr : n % 2^32 % 20 < 20 := Nat.mod_lt _ (by norm_num)
      have : ((Finset.range 40).filter fun i => eligibleAt n i = true) =
          (Finset.range 40).filter fun i => i % 20 = n % 2^32 % 20 := by
        apply Finset.filter_congr
        intro i _
        simp [eligibleAt_iff]
      rw [this]
      exact two_of_each_offset _ hr
    · intro i _
      exact eligibleAt_iff n i
  · intro a ha i _
    rw [Finset.card_eq_one]
    refine ⟨a + (((i % 20 + 20) - ((a % 2^32 + 1) % 20)) % 20 + 1), ?_⟩
    ext y
    simp only [Finset.mem_filter, Finset.mem_Icc, Finset.mem_singleton,
      eligibleAt_iff]
    constructor
    · rintro ⟨⟨h1, h2⟩, h3⟩
      omega
    · intro hy
      subst hy
      refine ⟨⟨?_, ?_⟩, ?_⟩ <;> omega

/-- C7 counterexample: the window of 20 consecutive ticks straddling the `u32`
counter wrap (ticks `2^32 - 9` through `2^32 + 10`) never schedules the agent
with offset 16, because `2^32 mod 20 = 16` makes the counter residues jump.
The claim as stated asserts every agent is eligible exactly once on any such
window. -/
theorem staggered_scheduler_wrap_skip :
    16 < 40 ∧
    ((Finset.Icc (2^32 - 9) (2^32 + 10)).filter
      fun n => eligibleAt n 16 = true).card = 0 := by
  constructor
  · decide
  · decide

theorem staggered_scheduler_fairness_witness :
    ((Finset.range 40).filter fun i => eligibleAt 1 i = true).card = 2 ∧
    ((Finset.Icc 1 20).filter fun n => eligibleAt n 5 = true).card = 1 :=
  ⟨(staggered_scheduler_fairness.1 1).1,
   staggered_scheduler_fairness.2 0 (by decide) 5 (by decide)⟩

namespace NavGrid

/-- C9. If the start position maps to an in-bounds cell that is not walkable,
`find_path` returns `none` for every end position: the guard fires before any
search state is built, so no expansion happens and no partial path can be
produced. -/
theorem find_path_start_blocked (g : NavGrid) (s e : Vec3) (c : Cell)
    (hs : g.world_to_grid s = some c) (hw : g.is_walkable c.1 c.2 = false) :
    g.find_path s e = none := by
  unfold find_path
  rw [hs]
  cases he : g.world_to_grid e with
  | none => rfl
  | some c' => simp [hw]

end NavGrid

/-- The 1×1 grid whose only cell is blocked, used as concrete input for the
start-blocked witness. -/
def blockedUnit : NavGrid := (NavGrid.new 1 1 1).set_obstacle 0 0

theorem find_path_start_blocked_witness :
    blockedUnit.world_to_grid (blockedUnit.grid_to_world 0 0) = some (0, 0) ∧
    blockedUnit.is_walkable 0 0 = false ∧
    blockedUnit.find_path (blockedUnit.grid_to_world 0 0)
      (blockedUnit.grid_to_world 0 0) = none := by
  refine ⟨by decide, by decide, ?_⟩
  exact NavGrid.find_path_start_blocked blockedUnit _ _ (0, 0) (by decide)
    (by decide)


namespace NavGrid

theorem mem_rangeIncl (a lo hi : ℕ) : a ∈ rangeIncl lo hi ↔ lo ≤ a ∧ a ≤ hi := by
  simp only [rangeIncl, List.mem_range']
  constructor
  · rintro ⟨i, hi', rfl⟩
    omega
  · rintro ⟨h1, h2⟩
    exact ⟨a - lo, by omega, by omega⟩

theorem getD_foldl_set (f : ℕ → ℕ) (l : List ℕ) : ∀ (gr : List Bool) (idx : ℕ),
    (l.foldl (fun a i => a.set (f i) false) gr).getD idx false =
      if ∃ i ∈ l, f i = idx then false else gr.getD idx false := by
  induction l with
  | nil => intro gr idx; simp
  | cons i rest ih =>
    intro gr idx
    rw [List.foldl_cons, ih]
    by_cases hi : ∃ i' ∈ i :: rest, f i' = idx
    · rw [if_pos hi]
      by_cases hrest : ∃ i' ∈ rest, f i' = idx
      · rw [if_pos hrest]
      · rw [if_neg hrest]
        have hfi : f i = idx := by
          obtain ⟨i', hmem, heq⟩ := hi
          rcases List.mem_cons.mp hmem with h | h
          · exact h ▸ heq
          · exact absurd ⟨i', h, heq⟩ hrest
        rw [← hfi]
        rcases Nat.lt_or_ge (f i) gr.length with h | h
        · rw [List.getD_eq_getElem?_getD, List.getElem?_set_self h]
          rfl
        · have hlen : (gr.set (f i) false).length ≤ f i := by simpa using h
          rw [List.getD_eq_getElem?_getD, List.getElem?_eq_none hlen]
          rfl
    · rw [if_neg hi,
        if_neg (fun ⟨i', h1, h2⟩ => hi ⟨i', List.mem_cons_of_mem _ h1, h2⟩)]
      have hne : f i ≠ idx := fun h => hi ⟨i, List.mem_cons_self i rest, h⟩
      rw [List.getD_eq_getElem?_getD, List.getElem?_set_ne hne,
        ← List.getD_eq_getElem?_getD]

theorem getD_double_foldl_set (w : ℕ) (ys xs : List ℕ) :
    ∀ (gr : List Bool) (idx : ℕ),
    (ys.foldl (fun a y => xs.foldl (fun a2 x => a2.set (y * w + x) false) a)
      gr).getD idx false =
      if ∃ y ∈ ys, ∃ x ∈ xs, y * w + x = idx then false
      else gr.getD idx false := by
  induction ys with
  | nil => intro gr idx; simp
  | cons y rest ih =>
    intro gr idx
    rw [List.foldl_cons, ih]
    by_cases hall : ∃ y' ∈ y :: rest, ∃ x ∈ xs, y' * w + x = idx
    · rw [if_pos hall]
      by_cases hrest : ∃ y' ∈ rest, ∃ x ∈ xs, y' * w + x = idx
      · rw [if_pos hrest]
      · rw [if_neg hrest]
        have hy : ∃ x ∈ xs, y * w + x = idx := by
          obtain ⟨y', hmem, hx⟩ := hall
          rcases List.mem_cons.mp hmem with h | h
          · exact h ▸ hx
          · exact absurd ⟨y', h, hx⟩ hrest
        rw [getD_foldl_set (fun x => y * w + x) xs gr idx, if_pos hy]
    · rw [if_neg hall,
        if_neg (fun ⟨y', h1, hx⟩ => hall ⟨y', List.mem_cons_of_mem _ h1, hx⟩)]
      have hy : ¬∃ x ∈ xs, y * w + x = idx :=
        fun h => hall ⟨y, List.mem_cons_self y rest, h⟩
      rw [getD_foldl_set (fun x => y * w + x) xs gr idx, if_neg hy]

theorem width_set_obstacle_rect (g : NavGrid) (a b c d : ℕ) :
    (g.set_obstacle_rect a b c d).width = g.width := rfl

theorem height_set_obstacle_rect (g : NavGrid) (a b c d : ℕ) :
    (g.set_obstacle_rect a b c d).height = g.height := rfl

/-- Walkability after `set_obstacle_rect`: exactly the cells of the requested
rectangle (intersected with the grid, since out-of-range cells are never
walkable anyway) become blocked, and nothing else changes. -/
theorem is_walkable_set_obstacle_rect (g : NavGrid)
    (min_x min_y max_x max_y x y : ℕ) :
    (g.set_obstacle_rect min_x min_y max_x max_y).is_walkable x y =
      (g.is_walkable x y &&
        !(decide (min_x ≤ x ∧ x ≤ max_x ∧ min_y ≤ y ∧ y ≤ max_y))) := by
  rw [is_walkable, is_walkable, width_set_obstacle_rect, height_set_obstacle_rect]
  by_cases hin : x < g.width ∧ y < g.height
  · have hw : 0 < g.width := by omega
    rw [if_pos hin, if_pos hin]
    show (g.set_obstacle_rect min_x min_y max_x max_y).grid.getD
        (y * g.width + x) false = _
    rw [set_obstacle_rect]
    rw [getD_double_foldl_set]
    by_cases hrect : min_x ≤ x ∧ x ≤ max_x ∧ min_y ≤ y ∧ y ≤ max_y
    · have hcond : ∃ y' ∈ rangeIncl min_y (min max_y (g.height - 1)),
          ∃ x' ∈ rangeIncl min_x (min max_x (g.width - 1)),
            y' * g.width + x' = y * g.width + x :=
        ⟨y, (mem_rangeIncl _ _ _).2 (by omega), x,
          (mem_rangeIncl _ _ _).2 (by omega), rfl⟩
      rw [if_pos hcond, decide_eq_true hrect]
      simp
    · have hcond : ¬∃ y' ∈ rangeIncl min_y (min max_y (g.height - 1)),
          ∃ x' ∈ rangeIncl min_x (min max_x (g.width - 1)),
            y' * g.width + x' = y * g.width + x := by
        rintro ⟨y', hy', x', hx', hidx⟩
        rw [mem_rangeIncl] at hy' hx'
        have hxw : x' < g.width := by omega
        have hxx : x' = x := by
          have hcomm : ∀ u v : ℕ, (u * g.width + v) % g.width = v % g.width := by
            intro u v
            rw [Nat.add_comm, Nat.add_mul_mod_self_right]
          have hmod : (y' * g.width + x') % g.width =
              (y * g.width + x) % g.width := by rw [hidx]
          rw [hcomm, hcomm, Nat.mod_eq_of_lt hxw,
            Nat.mod_eq_of_lt hin.1] at hmod
          exact hmod
        have hyy : y' = y := by
          subst hxx
          have := Nat.add_right_cancel hidx
          exact Nat.eq_of_mul_eq_mul_right hw this
        omega
      rw [if_neg hcond, decide_eq_false hrect]
      simp
  · rw [if_neg hin, if_neg hin]
    simp

end NavGrid

namespace NavGrid

/-- C2 (amended). When both corner positions of the obstacle rectangle convert
to in-bounds cells, `mark_obstacle_world` blocks exactly the covered cells and
changes nothing else; but when either corner falls outside the grid, the whole
operation is a silent no-op (the source requires both `world_to_grid` calls to
succeed), so a rectangle that extends partially outside the grid blocks
nothing at all. -/
theorem mark_obstacle_world_spec :
    (∀ (g : NavGrid) (pos he : Vec3) (c_min c_max : Cell),
      g.world_to_grid (pos.sub ⟨he.x, 0, he.z⟩) = some c_min →
      g.world_to_grid (pos.add ⟨he.x, 0, he.z⟩) = some c_max →
      ∀ x y, (g.mark_obstacle_world pos he).is_walkable x y =
        (g.is_walkable x y &&
          !(decide (c_min.1 ≤ x ∧ x ≤ c_max.1 ∧ c_min.2 ≤ y ∧ y ≤ c_max.2))))
    ∧ (∀ (g : NavGrid) (pos he : Vec3),
      (g.world_to_grid (pos.sub ⟨he.x, 0, he.z⟩) = none ∨
       g.world_to_grid (pos.add ⟨he.x, 0, he.z⟩) = none) →
      g.mark_obstacle_world pos he = g) := by
  constructor
  · intro g pos he c_min c_max h1 h2 x y
    have hrw : g.mark_obstacle_world pos he =
        g.set_obstacle_rect c_min.1 c_min.2 c_max.1 c_max.2 := by
      unfold mark_obstacle_world
      simp only [h1, h2]
    rw [hrw]
    exact is_walkable_set_obstacle_rect g c_min.1 c_min.2 c_max.1 c_max.2 x y
  · intro g pos he h
    unfold mark_obstacle_world
    rcases h with h | h
    · simp only [h]
    · simp only [h]
      cases g.world_to_grid (pos.sub ⟨he.x, 0, he.z⟩) <;> rfl

end NavGrid

/-- A 10×10 unit grid with an obstacle rectangle whose upper corner lies just
outside the world bounds, for the C2 counterexample. -/
def edgeGrid : NavGrid := NavGrid.new 10 10 1

set_option maxHeartbeats 2000000 in
/-- C2 counterexample: the obstacle centered at `(4.5, 4.5)` with half extents
`(1, 1)` covers the in-bounds cell `(9, 9)` (its world rectangle spans
`[3.5, 5.5]²`, containing that cell's center `(4.5, 4.5)`), yet
`mark_obstacle_world` leaves the cell walkable, because the rectangle's max
corner converts to no grid cell and the operation silently does nothing —
there is no clamping. -/
theorem mark_obstacle_world_edge_noop :
    ((⟨4.5, 0, 4.5⟩ : Vec3).sub ⟨1, 0, 1⟩).x ≤ (edgeGrid.grid_to_world 9 9).x ∧
    (edgeGrid.grid_to_world 9 9).x ≤ ((⟨4.5, 0, 4.5⟩ : Vec3).add ⟨1, 0, 1⟩).x ∧
    ((⟨4.5, 0, 4.5⟩ : Vec3).sub ⟨1, 0, 1⟩).z ≤ (edgeGrid.grid_to_world 9 9).z ∧
    (edgeGrid.grid_to_world 9 9).z ≤ ((⟨4.5, 0, 4.5⟩ : Vec3).add ⟨1, 0, 1⟩).z ∧
    9 < edgeGrid.width ∧ 9 < edgeGrid.height ∧
    (edgeGrid.mark_obstacle_world ⟨4.5, 0, 4.5⟩ ⟨1, 0, 1⟩).is_walkable 9 9
      = true := by
  decide

set_option maxHeartbeats 2000000 in
theorem mark_obstacle_world_spec_witness :
    edgeGrid.world_to_grid ((⟨0, 0, 0⟩ : Vec3).sub ⟨1, 0, 1⟩) = some (4, 4) ∧
    edgeGrid.world_to_grid ((⟨0, 0, 0⟩ : Vec3).add ⟨1, 0, 1⟩) = some (6, 6) ∧
    (edgeGrid.mark_obstacle_world ⟨0, 0, 0⟩ ⟨1, 0, 1⟩).is_walkable 5 5
      = false := by
  refine ⟨by decide, by decide, ?_⟩
  rw [NavGrid.mark_obstacle_world_spec.1 edgeGrid ⟨0, 0, 0⟩ ⟨1, 0, 1⟩ (4, 4)
    (6, 6) (by decide) (by decide) 5 5]
  decide


namespace NavGrid

theorem simplifyAux_stop (g : NavGrid) (path : List Vec3) (fuel i : ℕ)
    (h : ¬ i < path.length - 1) : simplifyAux g path fuel i = [] := by
  cases fuel with
  | zero => rfl
  | succ fuel => simp [simplifyAux, h]

theorem simplifyAux_sublist (g : NavGrid) (path : List Vec3) : ∀ fuel i,
    List.Sublist (simplifyAux g path fuel i) (path.drop (i + 1)) := by
  intro fuel
  induction fuel with
  | zero => intro i; exact List.nil_sublist _
  | succ fuel ih =>
    intro i
    by_cases h : i < path.length - 1
    · rw [simplifyAux, if_pos h]
      set j := findFurthest g path i (path.length - 1) with hj
      have hub : j ≤ path.length - 1 := findFurthest_le g path i _
      have hlb : i + 1 ≤ j := findFurthest_lt_bound g path i _ (by omega)
      have hj_lt : j < path.length := by omega
      have hdropj : path.drop j = path.getD j default :: path.drop (j + 1) := by
        rw [List.drop_eq_getElem_cons hj_lt]
        congr 1
        rw [List.getD_eq_getElem?_getD, List.getElem?_eq_getElem hj_lt]
        rfl
      have step1 : List.Sublist
          (path.getD j default :: simplifyAux g path fuel j) (path.drop j) := by
        rw [hdropj]
        exact List.Sublist.cons₂ _ (ih j)
      exact step1.trans (List.drop_sublist_drop_left path (by omega))
    · rw [simplifyAux_stop g path _ i h]
      exact List.nil_sublist _

theorem simplifyAux_last (g : NavGrid) (path : List Vec3) : ∀ fuel i,
    path.length ≤ fuel + i + 1 → i < path.length - 1 →
    simplifyAux g path fuel i ≠ [] ∧
    (simplifyAux g path fuel i).getLast? =
      some (path.getD (path.length - 1) default) := by
  intro fuel
  induction fuel with
  | zero => intro i hfuel hi; omega
  | succ fuel ih =>
    intro i hfuel hi
    rw [simplifyAux, if_pos hi]
    set j := findFurthest g path i (path.length - 1) with hj
    have hub : j ≤ path.length - 1 := findFurthest_le g path i _
    have hlb : i + 1 ≤ j := findFurthest_lt_bound g path i _ (by omega)
    by_cases hjend : j < path.length - 1
    · obtain ⟨hne, hlast⟩ := ih j (by omega) hjend
      refine ⟨by simp, ?_⟩
      rw [List.getLast?_cons, hlast]
      rfl
    · have hstop : simplifyAux g path fuel j = [] :=
        simplifyAux_stop g path _ j hjend
      rw [hstop]
      have hjeq : j = path.length - 1 := by omega
      rw [hjeq]
      exact ⟨by simp, rfl⟩

theorem simplifyAux_length (g : NavGrid) (path : List Vec3) : ∀ fuel i,
    (simplifyAux g path fuel i).length ≤ path.length - 1 - i := by
  intro fuel
  induction fuel with
  | zero => intro i; simp [simplifyAux]
  | succ fuel ih =>
    intro i
    by_cases h : i < path.length - 1
    · rw [simplifyAux, if_pos h]
      have hlb := findFurthest_lt_bound g path i (path.length - 1) (by omega)
      have := ih (findFurthest g path i (path.length - 1))
      simp only [List.length_cons]
      omega
    · rw [simplifyAux_stop g path _ i h]
      simp

/-- C5. `simplify_path` returns a sublist of its input (elements in order at
strictly increasing indices), preserves the first and last waypoints exactly,
and never exceeds the input's length. -/
theorem simplify_path_subsequence (g : NavGrid) (path : List Vec3) :
    List.Sublist (g.simplify_path path) path ∧
    (g.simplify_path path).head? = path.head? ∧
    (g.simplify_path path).getLast? = path.getLast? ∧
    (g.simplify_path path).length ≤ path.length := by
  rw [simplify_path]
  by_cases hlen : path.length ≤ 2
  · rw [if_pos hlen]
    exact ⟨List.Sublist.refl _, rfl, rfl, le_rfl⟩
  · rw [if_neg hlen]
    match path, hlen with
    | a :: rest, hlen =>
      have hgetD0 : (a :: rest).getD 0 default = a := rfl
      have hdrop1 : (a :: rest).drop 1 = rest := rfl
      have hsub := simplifyAux_sublist g (a :: rest) (a :: rest).length 0
      rw [hdrop1] at hsub
      obtain ⟨hne, hlast⟩ := simplifyAux_last g (a :: rest) (a :: rest).length 0
        (by omega) (by simp at hlen ⊢; omega)
      have hlenaux := simplifyAux_length g (a :: rest) (a :: rest).length 0
      refine ⟨?_, ?_, ?_, ?_⟩
      · rw [hgetD0]
        exact List.Sublist.cons₂ _ hsub
      · rw [hgetD0]
        rfl
      · rw [hgetD0, List.getLast?_cons, hlast]
        rw [List.getLast?_eq_getElem?]
        have hlt : (a :: rest).length - 1 < (a :: rest).length := by
          simp
        rw [List.getElem?_eq_getElem hlt, List.getD_eq_getElem?_getD,
          List.getElem?_eq_getElem hlt]
        rfl
      · simp only [List.length_cons]
        simp only [List.length_cons] at hlenaux
        omega

end NavGrid

namespace NavGrid

theorem can_walk_straight_eq (g : NavGrid) (A B : Vec3) :
    can_walk_straight g A B =
      (if walkSteps g ((B.sub A).lengthSq) ≤ 1 then true
       else (List.range' 1 (walkSteps g ((B.sub A).lengthSq) - 1)).all fun i =>
         match g.world_to_grid
             (A.lerp B ((i : ℚ) / (walkSteps g ((B.sub A).lengthSq) : ℚ))) with
         | some c => g.is_walkable c.1 c.2
         | none => false) := rfl

theorem walkSteps_zero (g : NavGrid) : walkSteps g 0 = 0 := by
  rw [walkSteps]
  split
  · simp [natSqrt, natSqrtAux]
  · rfl

/-- C6 (amended). `can_walk_straight` accepts outright (sampling nothing, even
through unwalkable cells) whenever the truncated step count
`trunc(dist / (cell_size / 2))` is at most 1 — in particular whenever the
distance is below one cell size, including `A = B`; otherwise it is true iff
every interior sample at parameters `i / steps`, `0 < i < steps` (an actual
spacing of `dist / steps`, which lies in `[cell_size/2, cell_size)`, never at
most half a cell), lands in an in-bounds walkable cell. Endpoints are never
sampled. -/
theorem can_walk_straight_sampling :
    (∀ (g : NavGrid) (A B : Vec3), can_walk_straight g A B = true ↔
      (walkSteps g ((B.sub A).lengthSq) ≤ 1 ∨
       ∀ i, 1 ≤ i → i < walkSteps g ((B.sub A).lengthSq) →
         ∃ c : Cell, g.world_to_grid
             (A.lerp B ((i : ℚ) / (walkSteps g ((B.sub A).lengthSq) : ℚ)))
             = some c ∧
           g.is_walkable c.1 c.2 = true))
    ∧ ∀ (g : NavGrid) (A : Vec3), can_walk_straight g A A = true := by
  constructor
  · intro g A B
    rw [can_walk_straight_eq]
    by_cases h : walkSteps g ((B.sub A).lengthSq) ≤ 1
    · simp only [if_pos h]
      simp [h]
    · rw [if_neg h, List.all_eq_true]
      constructor
      · intro hall
        refine Or.inr fun i h1 hi => ?_
        have hmem : i ∈ List.range' 1 (walkSteps g ((B.sub A).lengthSq) - 1) := by
          rw [List.mem_range']
          exact ⟨i - 1, by omega, by omega⟩
        have hthis := hall i hmem
        cases hcase : g.world_to_grid
            (A.lerp B ((i : ℚ) / (walkSteps g ((B.sub A).lengthSq) : ℚ))) with
        | none => rw [hcase] at hthis; exact absurd hthis (by simp)
        | some c =>
          refine ⟨c, rfl, ?_⟩
          rw [hcase] at hthis
          exact hthis
      · rintro (hsteps | hsamp)
        · omega
        · intro i hmem
          rw [List.mem_range'] at hmem
          obtain ⟨k, hk, rfl⟩ := hmem
          obtain ⟨c, hc, hw⟩ := hsamp (1 + 1 * k) (by omega) (by omega)
          rw [hc]
          exact hw
  · intro g A
    have hdsq : (A.sub A).lengthSq = 0 := by
      simp [Vec3.sub, Vec3.lengthSq]
    rw [can_walk_straight_eq, hdsq, walkSteps_zero]
    rfl

end NavGrid

/-- A 2×1 unit grid with both cells blocked, for the C6 counterexample. -/
def blockedPair : NavGrid := (NavGrid.new 2 1 1).set_obstacle_rect 0 0 1 0

/-- C6 counterexample: two distinct points `0.9` world units apart (cell size
`1`), each lying in a blocked cell of a fully blocked grid; every point of the
segment — in particular every sample of any sampling at spacing at most half a
cell, which must include the endpoints — lies in an unwalkable cell, yet
`can_walk_straight` returns `true` because `trunc(0.9 / 0.5) = 1 ≤ 1` makes it
skip sampling entirely. -/
theorem can_walk_straight_short_segment_unchecked :
    (blockedPair.grid_to_world 0 0) ≠ (⟨0.4, 0, 0⟩ : Vec3) ∧
    blockedPair.world_to_grid (blockedPair.grid_to_world 0 0) = some (0, 0) ∧
    blockedPair.world_to_grid (⟨0.4, 0, 0⟩ : Vec3) = some (1, 0) ∧
    blockedPair.is_walkable 0 0 = false ∧
    blockedPair.is_walkable 1 0 = false ∧
    blockedPair.can_walk_straight (blockedPair.grid_to_world 0 0)
      (⟨0.4, 0, 0⟩ : Vec3) = true := by
  decide

theorem can_walk_straight_sampling_witness :
    blockedPair.can_walk_straight (blockedPair.grid_to_world 0 0)
      (blockedPair.grid_to_world 0 0) = true :=
  NavGrid.can_walk_straight_sampling.2 blockedPair (blockedPair.grid_to_world 0 0)

/-- Chebyshev (ring) distance between two cells: the ring radius at which the
expanding perimeter search of `find_nearest_walkable` reaches a cell. -/
def chebDist (a b : Cell) : ℕ :=
  max ((a.1 : ℤ) - (b.1 : ℤ)).natAbs ((a.2 : ℤ) - (b.2 : ℤ)).natAbs

namespace NavGrid

theorem mem_offsets (r : ℕ) (d : ℤ) :
    d ∈ (List.range (2 * r + 1)).map (fun (a : ℕ) => (a : ℤ) - (r : ℤ)) ↔
      -(r : ℤ) ≤ d ∧ d ≤ r := by
  constructor
  · intro h
    obtain ⟨a, ha, rfl⟩ := List.mem_map.1 h
    rw [List.mem_range] at ha
    omega
  · intro h
    rw [List.mem_map]
    refine ⟨(d + (r : ℤ)).toNat, ?_, ?_⟩
    · rw [List.mem_range]
      omega
    · omega

theorem ringCheck_eq_none_iff (g : NavGrid) (p : Cell) (r : ℕ) :
    g.ringCheck p r = none ↔
      ∀ c : Cell, chebDist c p = r → g.is_walkable c.1 c.2 = false := by
  rw [ringCheck, List.findSome?_eq_none_iff]
  constructor
  · intro hnone c hc
    by_contra hwalk
    rw [Bool.not_eq_false] at hwalk
    have hbx : c.1 < g.width ∧ c.2 < g.height := by
      by_contra hb
      rw [is_walkable, if_neg] at hwalk
      · exact absurd hwalk (by simp)
      · tauto
    set dx : ℤ := (c.1 : ℤ) - p.1 with hdx
    set dy : ℤ := (c.2 : ℤ) - p.2 with hdy
    have hcheb : max dx.natAbs dy.natAbs = r := hc
    have hdxm : dx ∈ (List.range (2 * r + 1)).map
        (fun (a : ℕ) => (a : ℤ) - (r : ℤ)) :=
      (mem_offsets r dx).2 (by omega)
    have hdym : dy ∈ (List.range (2 * r + 1)).map
        (fun (a : ℕ) => (a : ℤ) - (r : ℤ)) :=
      (mem_offsets r dy).2 (by omega)
    have hinner := List.findSome?_eq_none_iff.1 (hnone dx hdxm) dy hdym
    rw [if_neg (by omega)] at hinner
    have hnx : (p.1 : ℤ) + dx = (c.1 : ℤ) := by omega
    have hny : (p.2 : ℤ) + dy = (c.2 : ℤ) := by omega
    rw [hnx, hny, if_pos (by omega)] at hinner
    have htn : ((c.1 : ℤ).toNat, (c.2 : ℤ).toNat) = c := by
      simp
    rw [Int.toNat_natCast, Int.toNat_natCast] at hinner
    rw [hwalk] at hinner
    simp at hinner
  · intro hall dx hdxm
    rw [List.findSome?_eq_none_iff]
    intro dy hdym
    rw [mem_offsets] at hdxm hdym
    by_cases hperim : dx.natAbs ≠ r ∧ dy.natAbs ≠ r
    · rw [if_pos hperim]
    · rw [if_neg hperim]
      by_cases hb : 0 ≤ (p.1 : ℤ) + dx ∧ (p.1 : ℤ) + dx < (g.width : ℤ) ∧
          0 ≤ (p.2 : ℤ) + dy ∧ (p.2 : ℤ) + dy < (g.height : ℤ)
      · rw [if_pos hb]
        have hfalse := hall (((p.1 : ℤ) + dx).toNat, ((p.2 : ℤ) + dy).toNat)
          (by simp only [chebDist]; omega)
        rw [hfalse]
        simp
      · rw [if_neg hb]

theorem ringCheck_some (g : NavGrid) (p : Cell) (r : ℕ) (c' : Cell)
    (h : g.ringCheck p r = some c') :
    g.is_walkable c'.1 c'.2 = true ∧ chebDist c' p = r := by
  rw [ringCheck] at h
  obtain ⟨dx, hdxm, hdx⟩ := List.exists_of_findSome?_eq_some h
  obtain ⟨dy, hdym, hdy⟩ := List.exists_of_findSome?_eq_some hdx
  rw [mem_offsets] at hdxm hdym
  by_cases hperim : dx.natAbs ≠ r ∧ dy.natAbs ≠ r
  · rw [if_pos hperim] at hdy
    exact absurd hdy (by simp)
  · rw [if_neg hperim] at hdy
    by_cases hb : 0 ≤ (p.1 : ℤ) + dx ∧ (p.1 : ℤ) + dx < (g.width : ℤ) ∧
        0 ≤ (p.2 : ℤ) + dy ∧ (p.2 : ℤ) + dy < (g.height : ℤ)
    · rw [if_pos hb] at hdy
      by_cases hw : g.is_walkable ((p.1 : ℤ) + dx).toNat ((p.2 : ℤ) + dy).toNat
      · rw [if_pos hw] at hdy
        obtain rfl : (((p.1 : ℤ) + dx).toNat, ((p.2 : ℤ) + dy).toNat) = c' :=
          by injection hdy
        refine ⟨hw, ?_⟩
        simp only [chebDist]
        omega
      · rw [if_neg hw] at hdy
        exact absurd hdy (by simp)
    · rw [if_neg hb] at hdy
      exact absurd hdy (by simp)

end NavGrid

namespace NavGrid

/-- C3 (amended). `find_nearest_walkable` performs the expanding perimeter
search for radii `1..=9` (the source's `for radius in 1..10`): it fails iff no
walkable cell lies within Chebyshev distance 9 of the goal cell, any cell it
returns is walkable at Chebyshev distance between 1 and 9, and when it fails
on an in-bounds unwalkable goal cell, `find_path` returns no path. -/
theorem find_nearest_walkable_ring_bound :
    (∀ (g : NavGrid) (p : Cell), g.find_nearest_walkable p = none ↔
      ¬∃ c : Cell, 1 ≤ chebDist c p ∧ chebDist c p ≤ 9 ∧
        g.is_walkable c.1 c.2 = true)
    ∧ (∀ (g : NavGrid) (p c' : Cell), g.find_nearest_walkable p = some c' →
      g.is_walkable c'.1 c'.2 = true ∧ 1 ≤ chebDist c' p ∧ chebDist c' p ≤ 9)
    ∧ (∀ (g : NavGrid) (s e : Vec3) (sc ec : Cell),
      g.world_to_grid s = some sc → g.is_walkable sc.1 sc.2 = true →
      g.world_to_grid e = some ec → g.is_walkable ec.1 ec.2 = false →
      g.find_nearest_walkable ec = none → g.find_path s e = none) := by
  refine ⟨?_, ?_, ?_⟩
  · intro g p
    rw [find_nearest_walkable, List.findSome?_eq_none_iff]
    constructor
    · rintro hall ⟨c, h1, h9, hw⟩
      have hr : chebDist c p ∈ List.range' 1 9 := by
        rw [List.mem_range']
        exact ⟨chebDist c p - 1, by omega, by omega⟩
      have := (ringCheck_eq_none_iff g p (chebDist c p)).1 (hall _ hr) c rfl
      rw [hw] at this
      exact absurd this (by simp)
    · intro hnone r hr
      rw [List.mem_range'] at hr
      obtain ⟨k, hk, rfl⟩ := hr
      rw [ringCheck_eq_none_iff]
      intro c hc
      by_contra hw
      rw [Bool.not_eq_false] at hw
      exact hnone ⟨c, by omega, by omega, hw⟩
  · intro g p c' h
    rw [find_nearest_walkable] at h
    obtain ⟨r, hr, hring⟩ := List.exists_of_findSome?_eq_some h
    rw [List.mem_range'] at hr
    obtain ⟨k, hk, rfl⟩ := hr
    obtain ⟨hw, hd⟩ := ringCheck_some g p _ c' hring
    exact ⟨hw, by omega, by omega⟩
  · intro g s e sc ec hs hsw he hew hnone
    unfold find_path
    simp only [hs, he]
    rw [if_pos hsw, if_neg (by rw [hew]; exact Bool.false_ne_true), hnone]

end NavGrid

/-- A 12×1 corridor whose only walkable cell is `(0, 0)`, with the goal cell
`(10, 0)` at Chebyshev distance exactly 10 from it, for the C3 counterexample. -/
def corridor : NavGrid := (NavGrid.new 12 1 1).set_obstacle_rect 1 0 11 0

/-- C3 counterexample: the walkable cell `(0, 0)` lies at ring distance exactly
10 from the unwalkable goal cell `(10, 0)` (within the claimed bound of 10
rings), the start is walkable, yet `find_path` fails, because the source's
`for radius in 1..10` searches only rings `1..=9`. -/
theorem find_path_misses_ring_ten :
    corridor.is_walkable 0 0 = true ∧
    chebDist (0, 0) (10, 0) = 10 ∧
    corridor.world_to_grid (corridor.grid_to_world 0 0) = some (0, 0) ∧
    corridor.world_to_grid (corridor.grid_to_world 10 0) = some (10, 0) ∧
    corridor.is_walkable 10 0 = false ∧
    corridor.find_path (corridor.grid_to_world 0 0)
      (corridor.grid_to_world 10 0) = none := by
  decide

theorem find_nearest_walkable_ring_bound_witness :
    corridor.find_nearest_walkable (10, 0) = none ∧
    ((NavGrid.new 3 3 1).set_obstacle 1 1).find_nearest_walkable (1, 1)
      = some (0, 0) ∧
    ((NavGrid.new 3 3 1).set_obstacle 1 1).is_walkable 0 0 = true ∧
    1 ≤ chebDist (0, 0) (1, 1) ∧ chebDist (0, 0) (1, 1) ≤ 9 ∧
    corridor.find_path (corridor.grid_to_world 0 0)
      (corridor.grid_to_world 10 0) = none := by
  refine ⟨by decide, by decide, ?_⟩
  have h := NavGrid.find_nearest_walkable_ring_bound.2.1
    ((NavGrid.new 3 3 1).set_obstacle 1 1) (1, 1) (0, 0) (by decide)
  refine ⟨h.1, h.2.1, h.2.2, ?_⟩
  exact NavGrid.find_nearest_walkable_ring_bound.2.2 corridor _ _ (0, 0) (10, 0)
    (by decide) (by decide) (by decide) (by decide) (by decide)

namespace NavGrid

/-- Any cell produced by `get_neighbors` is walkable and differs from the
center by at most one in each coordinate (and is not the center itself). -/
theorem mem_get_neighbors (g : NavGrid) (a b : Cell)
    (h : b ∈ g.get_neighbors a) :
    g.is_walkable b.1 b.2 = true ∧ b ≠ a ∧
    ((b.1 : ℤ) - (a.1 : ℤ)).natAbs ≤ 1 ∧
    ((b.2 : ℤ) - (a.2 : ℤ)).natAbs ≤ 1 := by
  rw [get_neighbors] at h
  simp only [List.mem_flatMap] at h
  obtain ⟨d, hd, hb⟩ := h
  rw [directions] at hd
  fin_cases hd <;>
    · simp only [] at hb
      split_ifs at hb with h1 h2 h3 h4 <;>
        first
          | exact absurd hb (List.not_mem_nil _)
          | (rw [List.mem_singleton] at hb
             subst hb
             refine ⟨by simpa using h2, ?_, ?_, ?_⟩
             · intro he
               rw [Prod.mk.injEq] at he
               omega
             · simp only []
               omega
             · simp only []
               omega)

end NavGrid

namespace NavGrid

/-- The squared heuristic of a single `get_neighbors` step is `2` for a
diagonal step and `1` for a cardinal step. -/
theorem heuristicSq_step (g : NavGrid) (a b : Cell) (h : b ∈ g.get_neighbors a) :
    heuristicSq a b = if stepIsDiagonal a b then 2 else 1 := by
  obtain ⟨_, hne, hdx, hdy⟩ := mem_get_neighbors g a b h
  have hneq : ¬((b.1 : ℤ) - a.1 = 0 ∧ (b.2 : ℤ) - a.2 = 0) := by
    intro hc
    exact hne (Prod.ext (by omega) (by omega))
  rw [heuristicSq, stepIsDiagonal]
  have hcast : ((a.1 : ℚ) - b.1)^2 + ((a.2 : ℚ) - b.2)^2 =
      ((((a.1 : ℤ) - b.1)^2 + ((a.2 : ℤ) - b.2)^2 : ℤ) : ℚ) := by
    push_cast
    ring
  rw [hcast]
  by_cases hd : a.1 ≠ b.1 ∧ a.2 ≠ b.2
  · rw [decide_eq_true hd, if_pos rfl]
    have hu : (a.1 : ℤ) - b.1 = 1 ∨ (a.1 : ℤ) - b.1 = -1 := by omega
    have hv : (a.2 : ℤ) - b.2 = 1 ∨ (a.2 : ℤ) - b.2 = -1 := by omega
    rcases hu with hu | hu <;> rcases hv with hv | hv <;> rw [hu, hv] <;>
      norm_num
  · rw [decide_eq_false hd, if_neg (by simp)]
    have : ((a.1 : ℤ) - b.1 = 0 ∧ ((a.2 : ℤ) - b.2 = 1 ∨ (a.2 : ℤ) - b.2 = -1))
        ∨ ((a.2 : ℤ) - b.2 = 0 ∧ ((a.1 : ℤ) - b.1 = 1 ∨ (a.1 : ℤ) - b.1 = -1))
        := by
      rw [not_and_or] at hd
      push_neg at hd
      rcases hd with hd | hd <;> [left; right] <;> constructor <;> omega
    rcases this with ⟨h0, h1 | h1⟩ | ⟨h0, h1 | h1⟩ <;> rw [h0, h1] <;> norm_num

/-- The heuristic (euclidean distance of cell coordinates) as a complex
modulus. -/
theorem sqrt_heuristicSq (a b : Cell) :
    Real.sqrt ((heuristicSq a b : ℚ) : ℝ) =
      Complex.abs ⟨(a.1 : ℝ) - (b.1 : ℝ), (a.2 : ℝ) - (b.2 : ℝ)⟩ := by
  rw [Complex.abs_apply, Complex.normSq_mk]
  congr 1
  push_cast [heuristicSq]
  ring

/-- Triangle inequality for the euclidean cell-distance heuristic. -/
theorem sqrt_heuristicSq_triangle (a b t : Cell) :
    Real.sqrt ((heuristicSq a t : ℚ) : ℝ) ≤
      Real.sqrt ((heuristicSq a b : ℚ) : ℝ) +
        Real.sqrt ((heuristicSq b t : ℚ) : ℝ) := by
  rw [sqrt_heuristicSq, sqrt_heuristicSq, sqrt_heuristicSq]
  have h1 : (⟨(a.1 : ℝ) - (t.1 : ℝ), (a.2 : ℝ) - (t.2 : ℝ)⟩ : ℂ) =
      (⟨(a.1 : ℝ), (a.2 : ℝ)⟩ : ℂ) - ⟨(t.1 : ℝ), (t.2 : ℝ)⟩ := by
    apply Complex.ext <;> simp
  have h2 : (⟨(a.1 : ℝ) - (b.1 : ℝ), (a.2 : ℝ) - (b.2 : ℝ)⟩ : ℂ) =
      (⟨(a.1 : ℝ), (a.2 : ℝ)⟩ : ℂ) - ⟨(b.1 : ℝ), (b.2 : ℝ)⟩ := by
    apply Complex.ext <;> simp
  have h3 : (⟨(b.1 : ℝ) - (t.1 : ℝ), (b.2 : ℝ) - (t.2 : ℝ)⟩ : ℂ) =
      (⟨(b.1 : ℝ), (b.2 : ℝ)⟩ : ℂ) - ⟨(t.1 : ℝ), (t.2 : ℝ)⟩ := by
    apply Complex.ext <;> simp
  rw [h1, h2, h3]
  exact Complex.abs.sub_le _ _ _

/-- The real length of one neighbor step equals its ideal cost: `1` for a
cardinal step and `√2` for a diagonal step. -/
theorem sqrt_heuristicSq_of_step (g : NavGrid) (a b : Cell)
    (h : b ∈ g.get_neighbors a) :
    Real.sqrt ((heuristicSq a b : ℚ) : ℝ) =
      (if stepIsDiagonal a b then Real.sqrt 2 else 1) := by
  rw [heuristicSq_step g a b h]
  by_cases hd : stepIsDiagonal a b
  · rw [if_pos hd, if_pos hd]
    norm_num
  · rw [if_neg hd, if_neg hd]
    norm_num

end NavGrid

namespace NavGrid

theorem cardCount_cons (a b : Cell) (l : List Cell) :
    cardCount (a :: b :: l) =
      cardCount (b :: l) + (if stepIsDiagonal a b then 0 else 1) := by
  rw [cardCount, cardCount]
  simp only [List.tail_cons, List.zip_cons_cons, List.countP_cons]
  by_cases h : stepIsDiagonal a b <;> simp [h]

theorem diagCount_cons (a b : Cell) (l : List Cell) :
    diagCount (a :: b :: l) =
      diagCount (b :: l) + (if stepIsDiagonal a b then 1 else 0) := by
  rw [diagCount, diagCount]
  simp only [List.tail_cons, List.zip_cons_cons, List.countP_cons]

/-- C1 (amended). The euclidean cell-distance heuristic is admissible and
consistent for the ideal move-cost metric of `1` per cardinal step and `√2`
per diagonal step: it never exceeds the ideal cost of any 8-connected,
corner-cut-free route to the goal, and it drops by at most one ideal step
cost across any `get_neighbors` edge. (The code, however, charges `1.414`
rather than `√2` per diagonal step — see the counterexample — so this does
not transfer to a cost-minimality guarantee for the returned raw path under
the code's own metric.) -/
theorem heuristic_admissible_consistent :
    (∀ (g : NavGrid) (t a : Cell) (l : List Cell),
      List.Chain' (fun u v => v ∈ g.get_neighbors u) (a :: l) →
      (a :: l).getLast (List.cons_ne_nil a l) = t →
      Real.sqrt ((heuristicSq a t : ℚ) : ℝ) ≤
        (cardCount (a :: l) : ℝ) + (diagCount (a :: l) : ℝ) * Real.sqrt 2)
    ∧ (∀ (g : NavGrid) (a b t : Cell), b ∈ g.get_neighbors a →
      Real.sqrt ((heuristicSq a t : ℚ) : ℝ) ≤
        (if stepIsDiagonal a b then Real.sqrt 2 else 1) +
          Real.sqrt ((heuristicSq b t : ℚ) : ℝ)) := by
  have hcons : ∀ (g : NavGrid) (a b t : Cell), b ∈ g.get_neighbors a →
      Real.sqrt ((heuristicSq a t : ℚ) : ℝ) ≤
        (if stepIsDiagonal a b then Real.sqrt 2 else 1) +
          Real.sqrt ((heuristicSq b t : ℚ) : ℝ) := by
    intro g a b t h
    have htri := sqrt_heuristicSq_triangle a b t
    rw [sqrt_heuristicSq_of_step g a b h] at htri
    exact htri
  refine ⟨?_, hcons⟩
  intro g t a l
  induction l generalizing a with
  | nil =>
    intro _ hlast
    have ha : a = t := hlast
    subst ha
    have h0 : heuristicSq a a = 0 := by
      rw [heuristicSq]
      ring
    rw [h0]
    simp [cardCount, diagCount]
  | cons b l ih =>
    intro hchain hlast
    rw [List.chain'_cons] at hchain
    obtain ⟨hab, hchain⟩ := hchain
    rw [List.getLast_cons (List.cons_ne_nil b l)] at hlast
    have hih := ih b hchain hlast
    have hstep := hcons g a b t hab
    have hs2 : (0 : ℝ) ≤ Real.sqrt 2 := Real.sqrt_nonneg 2
    rw [cardCount_cons, diagCount_cons]
    by_cases hd : stepIsDiagonal a b
    · rw [if_pos hd] at hstep ⊢
      rw [if_pos hd]
      push_cast
      linarith
    · rw [if_neg hd] at hstep ⊢
      rw [if_neg hd]
      push_cast
      linarith

end NavGrid

/-- C1 counterexample: the move cost the code charges for the diagonal step
from `(0,0)` to `(1,1)` — a legal corner-cut-free route on an empty 3×3 grid —
is `1.414`, which is not `√2` and is strictly below the heuristic value
`√2` of that step. The heuristic therefore overestimates the cheapest route
cost under the code's metric: it is not admissible for the metric the code
actually uses, contrary to the claim. -/
theorem diagonal_cost_below_heuristic :
    ((NavGrid.move_cost (0, 0) (1, 1) : ℚ) : ℝ) ≠ Real.sqrt 2 ∧
    List.Chain' (fun u v => v ∈ (NavGrid.new 3 3 1).get_neighbors u)
      [(0, 0), (1, 1)] ∧
    ((NavGrid.pathCost [(0, 0), (1, 1)] : ℚ) : ℝ) <
      Real.sqrt ((NavGrid.heuristicSq (0, 0) (1, 1) : ℚ) : ℝ) := by
  have hmc : (NavGrid.move_cost (0, 0) (1, 1) : ℚ) = 1.414 := by decide
  have hpc : (NavGrid.pathCost [(0, 0), (1, 1)] : ℚ) = 1.414 := by decide
  have hhs : (NavGrid.heuristicSq (0, 0) (1, 1) : ℚ) = 2 := by decide
  have hlt : ((1.414 : ℚ) : ℝ) < Real.sqrt 2 := by
    rw [show ((1.414 : ℚ) : ℝ) = 1.414 by norm_num]
    rw [Real.lt_sqrt (by norm_num)]
    norm_num
  have hch : List.Chain' (fun u v => v ∈ (NavGrid.new 3 3 1).get_neighbors u)
      [(0, 0), (1, 1)] := by
    rw [List.chain'_cons]
    exact ⟨by decide, List.chain'_singleton _⟩
  refine ⟨?_, hch, ?_⟩
  · rw [hmc]
    exact ne_of_lt hlt
  · rw [hpc, hhs]
    exact_mod_cast hlt

theorem heuristic_admissible_consistent_witness :
    List.Chain' (fun u v => v ∈ (NavGrid.new 3 3 1).get_neighbors u)
      [(0, 0), (1, 1)] ∧
    Real.sqrt ((NavGrid.heuristicSq (0, 0) (1, 1) : ℚ) : ℝ) ≤
      (NavGrid.cardCount [(0, 0), (1, 1)] : ℝ) +
        (NavGrid.diagCount [(0, 0), (1, 1)] : ℝ) * Real.sqrt 2 := by
  have hch : List.Chain' (fun u v => v ∈ (NavGrid.new 3 3 1).get_neighbors u)
      [(0, 0), (1, 1)] := by
    rw [List.chain'_cons]
    exact ⟨by decide, List.chain'_singleton _⟩
  exact ⟨hch, NavGrid.heuristic_admissible_consistent.1 (NavGrid.new 3 3 1)
    (1, 1) (0, 0) [(1, 1)] hch rfl⟩

/-- `ZombiePath` component: the agent's waypoint sequence and traversal cursor. -/
structure ZombiePath where
  waypoints : List Vec3
  current_index : ℕ
deriving DecidableEq

/-- The per-zombie data read and written by `update_zombie_paths`: the
transform's translation, the stagger offset, and the path component. -/
structure ZombieState where
  translation : Vec3
  path_update_offset : ℕ
  path : ZombiePath
deriving DecidableEq

/-- `update_zombie_paths` (`enemy.rs`): on a tick whose counter value is
`frame`, every zombie whose offset differs from `frame % 20` is skipped; an
eligible zombie recomputes `find_path` from its position to the player, and
only on success replaces its waypoints wholesale and resets its cursor to 0. -/
def update_zombie_paths (grid : NavGrid) (frame : ℕ) (player_pos : Vec3)
    (zombies : List ZombieState) : List ZombieState :=
  zombies.map fun z =>
    if z.path_update_offset ≠ frame % 20 then z
    else
      match grid.find_path z.translation player_pos with
      | some new_path => { z with path := ⟨new_path, 0⟩ }
      | none => z

/-- C8. For an eligible zombie, a failed recompute (`find_path` returns
`none`) leaves its entire path state — waypoint sequence and cursor — exactly
unchanged, while a successful recompute replaces the waypoints wholesale and
resets the cursor to index 0. -/
theorem update_zombie_paths_replace_or_keep :
    (∀ (grid : NavGrid) (frame : ℕ) (pp : Vec3) (zs : List ZombieState)
      (i : ℕ) (z : ZombieState), zs[i]? = some z →
      z.path_update_offset = frame % 20 →
      grid.find_path z.translation pp = none →
      (update_zombie_paths grid frame pp zs)[i]? = some z)
    ∧ (∀ (grid : NavGrid) (frame : ℕ) (pp : Vec3) (zs : List ZombieState)
      (i : ℕ) (z : ZombieState) (np : List Vec3), zs[i]? = some z →
      z.path_update_offset = frame % 20 →
      grid.find_path z.translation pp = some np →
      (update_zombie_paths grid frame pp zs)[i]? =
        some { z with path := ⟨np, 0⟩ }) := by
  constructor
  · intro grid frame pp zs i z hz hoff hfp
    rw [update_zombie_paths, List.getElem?_map, hz, Option.map_some']
    rw [if_neg (by rw [hoff]; exact fun h => h rfl), hfp]
  · intro grid frame pp zs i z np hz hoff hfp
    rw [update_zombie_paths, List.getElem?_map, hz, Option.map_some']
    rw [if_neg (by rw [hoff]; exact fun h => h rfl), hfp]

/-- A fully walkable 2×2 grid for the C8 success-case witness. -/
def openQuad : NavGrid := NavGrid.new 2 2 1

/-- A zombie standing on the open 2×2 grid with a stale one-waypoint path and
a nonzero cursor, eligible on frame 0. -/
def zOpen : ZombieState := ⟨openQuad.grid_to_world 0 0, 0, ⟨[⟨7, 7, 7⟩], 5⟩⟩

/-- A zombie standing on the blocked 1×1 grid (its recompute always fails),
eligible on frame 0. -/
def zBlocked : ZombieState :=
  ⟨blockedUnit.grid_to_world 0 0, 0, ⟨[⟨7, 7, 7⟩], 3⟩⟩

theorem update_zombie_paths_replace_or_keep_witness :
    (update_zombie_paths blockedUnit 0 (blockedUnit.grid_to_world 0 0)
      [zBlocked])[0]? = some zBlocked ∧
    ∃ np, openQuad.find_path zOpen.translation (openQuad.grid_to_world 1 1)
        = some np ∧
      (update_zombie_paths openQuad 0 (openQuad.grid_to_world 1 1)
        [zOpen])[0]? = some { zOpen with path := ⟨np, 0⟩ } := by
  constructor
  · exact update_zombie_paths_replace_or_keep.1 blockedUnit 0 _ [zBlocked] 0
      zBlocked rfl rfl (by decide)
  · have hsome : (openQuad.find_path zOpen.translation
        (openQuad.grid_to_world 1 1)).isSome = true := by decide
    refine ⟨_, (Option.some_get hsome).symm, ?_⟩
    exact update_zombie_paths_replace_or_keep.2 openQuad 0 _ [zOpen] 0 zOpen _
      rfl rfl (Option.some_get hsome).symm

namespace NavGrid

/-- A walkable cell is in range (by definition of `is_walkable`). -/
theorem is_walkable_lt (g : NavGrid) (c : Cell)
    (h : g.is_walkable c.1 c.2 = true) : c.1 < g.width ∧ c.2 < g.height := by
  by_contra hb
  rw [is_walkable, if_neg hb] at h
  exact absurd h (by simp)

/-- Converting a cell center back to grid coordinates recovers the cell, for
any positive cell size and in-range cell. -/
theorem world_to_grid_grid_to_world (g : NavGrid) (x y : ℕ)
    (hcs : 0 < g.cell_size) (hx : x < g.width) (hy : y < g.height) :
    g.world_to_grid (g.grid_to_world x y) = some (x, y) := by
  rw [world_to_grid, grid_to_world]
  have hq : ∀ q : ℚ, (g.offset.1 + q * g.cell_size - g.offset.1) / g.cell_size
      = q := by
    intro q
    field_simp
  have hq2 : ∀ q : ℚ, (g.offset.2 + q * g.cell_size - g.offset.2) / g.cell_size
      = q := by
    intro q
    field_simp
  simp only [hq ((x : ℚ) + 1/2), hq2 ((y : ℚ) + 1/2)]
  have htr : ∀ n : ℕ, ratTrunc ((n : ℚ) + 1/2) = (n : ℤ) := by
    intro n
    rw [ratTrunc, if_pos (by positivity)]
    rw [show ((n : ℚ) + 1/2) = ((n : ℤ) : ℚ) + 1/2 by push_cast; ring]
    rw [Int.floor_int_add]
    norm_num
  rw [htr x, htr y]
  rw [if_pos (by refine ⟨by omega, ?_, by omega, ?_⟩ <;> exact_mod_cast
    (by assumption : _ < _))]
  simp

theorem mem_chaseParents (cf : List (Cell × Cell)) : ∀ (fuel : ℕ) (c x : Cell),
    x ∈ chaseParents cf fuel c → ∃ c', List.lookup c' cf = some x := by
  intro fuel
  induction fuel with
  | zero => intro c x hx; exact absurd hx (List.not_mem_nil x)
  | succ fuel ih =>
    intro c x hx
    rw [chaseParents] at hx
    cases hlk : List.lookup c cf with
    | none => rw [hlk] at hx; exact absurd hx (List.not_mem_nil x)
    | some p =>
      rw [hlk] at hx
      rcases List.mem_cons.mp hx with rfl | hx'
      · exact ⟨c, hlk⟩
      · exact ih p x hx'

/-- `ReachesIn cf S start n c`: following `came_from` links from `c` reaches
`start` in at most `n` steps, passing only through cells of `S` (the closed
set) after the first step. -/
def ReachesIn (cf : List (Cell × Cell)) (S : List Cell) (start : Cell) :
    ℕ → Cell → Prop
  | 0, c => c = start
  | n + 1, c => c = start ∨
      ∃ p, List.lookup c cf = some p ∧ p ∈ S ∧ ReachesIn cf S start n p

theorem ReachesIn.mono_n (cf : List (Cell × Cell)) (S : List Cell)
    (start : Cell) : ∀ n m c, n ≤ m → ReachesIn cf S start n c →
    ReachesIn cf S start m c := by
  intro n
  induction n with
  | zero =>
    intro m c _ h
    cases m with
    | zero => exact h
    | succ m => exact Or.inl h
  | succ n ih =>
    intro m c hnm h
    cases m with
    | zero => omega
    | succ m =>
      rcases h with h | ⟨p, hlk, hpS, hrec⟩
      · exact Or.inl h
      · exact Or.inr ⟨p, hlk, hpS, ih m p (by omega) hrec⟩

theorem ReachesIn.mono_S (cf : List (Cell × Cell)) (S S' : List Cell)
    (start : Cell) (hS : ∀ x ∈ S, x ∈ S') : ∀ n c, ReachesIn cf S start n c →
    ReachesIn cf S' start n c := by
  intro n
  induction n with
  | zero => intro c h; exact h
  | succ n ih =>
    intro c h
    rcases h with h | ⟨p, hlk, hpS, hrec⟩
    · exact Or.inl h
    · exact Or.inr ⟨p, hlk, hS p hpS, ih p hrec⟩

theorem ReachesIn.update (cf : List (Cell × Cell)) (S : List Cell)
    (start nbr p0 : Cell) (hnbr : nbr ∉ S) : ∀ n c, c ≠ nbr →
    ReachesIn cf S start n c → ReachesIn ((nbr, p0) :: cf) S start n c := by
  intro n
  induction n with
  | zero => intro c _ h; exact h
  | succ n ih =>
    intro c hc h
    rcases h with h | ⟨p, hlk, hpS, hrec⟩
    · exact Or.inl h
    · refine Or.inr ⟨p, ?_, hpS, ih p (fun hpn => hnbr (hpn ▸ hpS)) hrec⟩
      rw [List.lookup_cons, show (c == nbr) = false from
        beq_eq_false_iff_ne.mpr hc]
      exact hlk

theorem chaseParents_getLast (cf : List (Cell × Cell)) (S : List Cell)
    (start : Cell) (hstart : List.lookup start cf = none) :
    ∀ n c fuel, ReachesIn cf S start n c → n < fuel →
    (c :: chaseParents cf fuel c).getLast? = some start := by
  intro n
  induction n with
  | zero =>
    intro c fuel h hf
    subst h
    cases fuel with
    | zero => omega
    | succ fuel =>
      rw [chaseParents, hstart]
      rfl
  | succ n ih =>
    intro c fuel h hf
    rcases h with h | ⟨p, hlk, _, hrec⟩
    · subst h
      cases fuel with
      | zero => omega
      | succ fuel =>
        rw [chaseParents, hstart]
        rfl
    · cases fuel with
      | zero => omega
      | succ fuel =>
        rw [chaseParents, hlk]
        rw [List.getLast?_cons_cons]
        exact ih p fuel hrec (by omega)

end NavGrid


namespace NavGrid

theorem popMin_mem : ∀ (l : List Node) (nd : Node) (rest : List Node),
    popMin l = some (nd, rest) → nd ∈ l ∧ ∀ x ∈ rest, x ∈ l := by
  intro l
  induction l with
  | nil => intro nd rest h; exact absurd h (by rw [popMin]; simp)
  | cons n ns ih =>
    intro nd rest h
    rw [popMin] at h
    split at h
    · injection h with h
      injection h with h1 h2
      subst h1
      subst h2
      exact ⟨List.mem_cons_self n ns, fun x hx => absurd hx (List.not_mem_nil x)⟩
    · rename_i m r hns
      obtain ⟨hm, hr⟩ := ih m r hns
      split at h
      · injection h with h
        injection h with h1 h2
        subst h1
        subst h2
        refine ⟨List.mem_cons_self n ns, fun x hx => ?_⟩
        rcases List.mem_cons.mp hx with rfl | hx'
        · exact List.mem_cons_of_mem n hm
        · exact List.mem_cons_of_mem n (hr x hx')
      · injection h with h
        injection h with h1 h2
        subst h1
        subst h2
        refine ⟨List.mem_cons_of_mem n hm, fun x hx => ?_⟩
        rcases List.mem_cons.mp hx with rfl | hx'
        · exact List.mem_cons_self x ns
        · exact List.mem_cons_of_mem n (hr x hx')

/-- The A* loop invariant the soundness proofs rely on: `start` has no
`came_from` entry, every open node and every closed cell chases back to
`start` through closed cells within `cf.length` steps, and every `came_from`
key, value and open node is a walkable cell. -/
structure AInv (g : NavGrid) (start : Cell) (closed : List Cell)
    (open_set : List Node) (cf : List (Cell × Cell)) : Prop where
  start_no_parent : List.lookup start cf = none
  open_reaches : ∀ nd ∈ open_set, ReachesIn cf closed start cf.length nd.pos
  closed_reaches : ∀ c ∈ closed, ReachesIn cf closed start cf.length c
  cf_walkable : ∀ c p, List.lookup c cf = some p →
      g.is_walkable c.1 c.2 = true ∧ g.is_walkable p.1 p.2 = true
  open_walkable : ∀ nd ∈ open_set, g.is_walkable nd.pos.1 nd.pos.2 = true

theorem relaxNeighbor_preserves (g : NavGrid) (end_node current : Cell)
    (start : Cell) (closed : List Cell) (st : AState) (nbr : Cell)
    (hinv : AInv g start closed st.1 st.2.1)
    (hstart : start ∈ closed) (hcur : current ∈ closed)
    (hcurw : g.is_walkable current.1 current.2 = true)
    (hnbrw : g.is_walkable nbr.1 nbr.2 = true) :
    AInv g start closed (relaxNeighbor g end_node current closed st nbr).1
      (relaxNeighbor g end_node current closed st nbr).2.1 := by
  rw [relaxNeighbor]
  by_cases hcont : closed.contains nbr
  · rw [if_pos hcont]
    exact hinv
  · rw [if_neg hcont]
    have hnbr_not_closed : nbr ∉ closed := by
      intro hmem
      exact hcont (by simpa [List.elem_eq_mem] using hmem)
    have hnbr_ne_start : nbr ≠ start := fun h => hnbr_not_closed (h ▸ hstart)
    have hcur_ne_nbr : current ≠ nbr := fun h => hnbr_not_closed (h ▸ hcur)
    split
    · exact hinv
    · rename_i gc hgc
      dsimp only
      split
      · rename_i himp
        obtain ⟨h1, h2, h3, h4, h5⟩ := hinv
        have hreach_nbr : ReachesIn ((nbr, current) :: st.2.1) closed start
            ((nbr, current) :: st.2.1).length nbr := by
          have hcur_reach : ReachesIn st.2.1 closed start st.2.1.length
              current := h3 current hcur
          have hcur_reach' : ReachesIn ((nbr, current) :: st.2.1) closed start
              st.2.1.length current :=
            ReachesIn.update st.2.1 closed start nbr current hnbr_not_closed
              st.2.1.length current hcur_ne_nbr hcur_reach
          exact Or.inr ⟨current,
            by rw [List.lookup_cons,
              show (nbr == nbr) = true from beq_self_eq_true nbr],
            hcur, hcur_reach'⟩
        refine ⟨?_, ?_, ?_, ?_, ?_⟩
        · rw [List.lookup_cons, show (start == nbr) = false from
            beq_eq_false_iff_ne.mpr (Ne.symm hnbr_ne_start)]
          exact h1
        · intro nd hnd
          rcases List.mem_cons.mp hnd with rfl | hnd'
          · exact hreach_nbr
          · by_cases hpos : nd.pos = nbr
            · rw [hpos]
              exact hreach_nbr
            · exact ReachesIn.mono_n _ _ _ _ _ _ (by simp)
                (ReachesIn.update st.2.1 closed start nbr current
                  hnbr_not_closed st.2.1.length nd.pos hpos (h2 nd hnd'))
        · intro c hc
          have hc_ne : c ≠ nbr := fun h => hnbr_not_closed (h ▸ hc)
          exact ReachesIn.mono_n _ _ _ _ _ _ (by simp)
            (ReachesIn.update st.2.1 closed start nbr current hnbr_not_closed
              st.2.1.length c hc_ne (h3 c hc))
        · intro c p hlk
          rw [List.lookup_cons] at hlk
          by_cases hcnbr : c = nbr
          · rw [show (c == nbr) = true from beq_iff_eq.mpr hcnbr] at hlk
            injection hlk with hlk
            subst hlk
            exact ⟨hcnbr ▸ hnbrw, hcurw⟩
          · rw [show (c == nbr) = false from beq_eq_false_iff_ne.mpr hcnbr]
              at hlk
            exact h4 c p hlk
        · intro nd hnd
          rcases List.mem_cons.mp hnd with rfl | hnd'
          · exact hnbrw
          · exact h5 nd hnd'
      · exact hinv

end NavGrid

namespace NavGrid

theorem simplify_path_sublist (g : NavGrid) (path : List Vec3) :
    List.Sublist (g.simplify_path path) path := by
  rw [simplify_path]
  by_cases hlen : path.length ≤ 2
  · rw [if_pos hlen]
  · rw [if_neg hlen]
    match path, hlen with
    | a :: rest, hlen =>
      have hsub := simplifyAux_sublist g (a :: rest) (a :: rest).length 0
      rw [show (a :: rest).drop 1 = rest from rfl] at hsub
      exact List.Sublist.cons₂ _ hsub

theorem simplify_path_head (g : NavGrid) (path : List Vec3) :
    (g.simplify_path path).head? = path.head? := by
  rw [simplify_path]
  by_cases hlen : path.length ≤ 2
  · rw [if_pos hlen]
  · rw [if_neg hlen]
    match path, hlen with
    | a :: rest, hlen => rfl

theorem foldl_relax_preserves (g : NavGrid) (end_node current start : Cell)
    (closed : List Cell) (hstart : start ∈ closed) (hcur : current ∈ closed)
    (hcurw : g.is_walkable current.1 current.2 = true) :
    ∀ (nbrs : List Cell) (st : AState),
    (∀ nbr ∈ nbrs, g.is_walkable nbr.1 nbr.2 = true) →
    AInv g start closed st.1 st.2.1 →
    AInv g start closed
      (nbrs.foldl (relaxNeighbor g end_node current closed) st).1
      (nbrs.foldl (relaxNeighbor g end_node current closed) st).2.1 := by
  intro nbrs
  induction nbrs with
  | nil => intro st _ hinv; exact hinv
  | cons nbr nbrs ih =>
    intro st hw hinv
    rw [List.foldl_cons]
    exact ih (relaxNeighbor g end_node current closed st nbr)
      (fun x hx => hw x (List.mem_cons_of_mem nbr hx))
      (relaxNeighbor_preserves g end_node current start closed st nbr hinv
        hstart hcur hcurw (hw nbr (List.mem_cons_self nbr nbrs)))

theorem astarLoop_sound (g : NavGrid) (end_node start : Cell) :
    ∀ (fuel : ℕ) (open_set : List Node) (cf : List (Cell × Cell))
      (gs : List (Cell × ℚ)) (closed : List Cell),
    AInv g start closed open_set cf →
    (start ∈ closed ∨ ∀ nd ∈ open_set, nd.pos = start) →
    ∀ p, astarLoop g end_node fuel open_set cf gs closed = some p →
    (∀ wp ∈ p, ∃ c : Cell, g.is_walkable c.1 c.2 = true ∧
      wp = g.grid_to_world c.1 c.2) ∧
    p.head? = some (g.grid_to_world start.1 start.2) := by
  intro fuel
  induction fuel with
  | zero =>
    intro open_set cf gs closed _ _ p h
    exact absurd h (by rw [astarLoop]; simp)
  | succ fuel ih =>
    intro open_set cf gs closed hinv hsc p h
    rw [astarLoop] at h
    split at h
    · exact absurd h (by simp)
    · rename_i pr current rest hpop
      obtain ⟨hcur_mem, hrest_sub⟩ := popMin_mem open_set current rest hpop
      have hcurw := hinv.open_walkable current hcur_mem
      split at h
      · rename_i hend
        injection h with h
        subst h
        rw [reconstruct_path]
        have hreach := hinv.open_reaches current hcur_mem
        have hlast : (current.pos :: chaseParents cf (cf.length + 1)
            current.pos).getLast? = some start :=
          chaseParents_getLast cf closed start hinv.start_no_parent cf.length
            current.pos (cf.length + 1) hreach (by omega)
        have hcellsw : ∀ c' ∈ current.pos :: chaseParents cf (cf.length + 1)
            current.pos, g.is_walkable c'.1 c'.2 = true := by
          intro c' hc'
          rcases List.mem_cons.mp hc' with rfl | hc''
          · exact hcurw
          · obtain ⟨k, hk⟩ := mem_chaseParents cf _ current.pos c' hc''
            exact (hinv.cf_walkable k c' hk).2
        constructor
        · intro wp hwp
          have hwp_raw : wp ∈ ((current.pos :: chaseParents cf (cf.length + 1)
              current.pos).map fun c => g.grid_to_world c.1 c.2).reverse :=
            (simplify_path_sublist g _).subset hwp
          rw [List.mem_reverse, List.mem_map] at hwp_raw
          obtain ⟨c', hc', rfl⟩ := hwp_raw
          exact ⟨c', hcellsw c' hc', rfl⟩
        · rw [simplify_path_head, List.head?_reverse, List.getLast?_map, hlast]
          rfl
      · rename_i hend
        split at h
        · rename_i hcont
          exact ih rest cf gs closed
            ⟨hinv.start_no_parent,
             fun nd hnd => hinv.open_reaches nd (hrest_sub nd hnd),
             hinv.closed_reaches, hinv.cf_walkable,
             fun nd hnd => hinv.open_walkable nd (hrest_sub nd hnd)⟩
            (hsc.imp id fun hall nd hnd => hall nd (hrest_sub nd hnd)) p h
        · rename_i hcont
          dsimp only at h
          have hstart' : start ∈ current.pos :: closed := by
            rcases hsc with hsc | hall
            · exact List.mem_cons_of_mem _ hsc
            · rw [← hall current hcur_mem]
              exact List.mem_cons_self _ _
          have hsubS : ∀ x ∈ closed, x ∈ current.pos :: closed :=
            fun x hx => List.mem_cons_of_mem _ hx
          have hinv' : AInv g start (current.pos :: closed) rest cf :=
            ⟨hinv.start_no_parent,
             fun nd hnd => ReachesIn.mono_S cf closed _ start hsubS _ _
               (hinv.open_reaches nd (hrest_sub nd hnd)),
             fun c hc => by
               rcases List.mem_cons.mp hc with rfl | hc'
               · exact ReachesIn.mono_S cf closed _ start hsubS _ _
                   (hinv.open_reaches current hcur_mem)
               · exact ReachesIn.mono_S cf closed _ start hsubS _ _
                   (hinv.closed_reaches c hc'),
             hinv.cf_walkable,
             fun nd hnd => hinv.open_walkable nd (hrest_sub nd hnd)⟩
          have hfold := foldl_relax_preserves g end_node current.pos start
            (current.pos :: closed) hstart' (List.mem_cons_self _ _) hcurw
            (g.get_neighbors current.pos) (rest, cf, gs)
            (fun nbr hnbr => (mem_get_neighbors g current.pos nbr hnbr).1)
            hinv'
          exact ih _ _ _ _ hfold (Or.inl hstart') p h

end NavGrid

namespace NavGrid

/-- Soundness of `find_path` relative to the A* invariant: when it returns a
path, the start cell is walkable, every waypoint is the world center of some
walkable cell, and the first waypoint is the start cell's center. -/
theorem find_path_sound (g : NavGrid) (s e : Vec3) (p : List Vec3) (sc : Cell)
    (hs : g.world_to_grid s = some sc) (h : g.find_path s e = some p) :
    g.is_walkable sc.1 sc.2 = true ∧
    (∀ wp ∈ p, ∃ c : Cell, g.is_walkable c.1 c.2 = true ∧
      wp = g.grid_to_world c.1 c.2) ∧
    p.head? = some (g.grid_to_world sc.1 sc.2) := by
  unfold find_path at h
  rw [hs] at h
  split at h
  · exact absurd h (by simp)
  · rename_i start_node heq0
    injection heq0 with heq0
    subst heq0
    split at h
    · exact absurd h (by simp)
    · rename_i end_node0 he0
      split at h
      · rename_i hw
        split at h
        · exact absurd h (by simp)
        · rename_i end_node hend
          have hrun := astarLoop_sound g end_node sc
            (8 * g.width * g.height + 2)
            [⟨sc, (0, heuristicSq sc end_node)⟩] [] [(sc, 0)] []
            ⟨rfl,
             fun nd hnd => by
               rcases List.mem_cons.mp hnd with rfl | hnd'
               · rfl
               · exact absurd hnd' (List.not_mem_nil nd),
             fun c hc => absurd hc (List.not_mem_nil c),
             fun c q hlk => absurd hlk (by simp),
             fun nd hnd => by
               rcases List.mem_cons.mp hnd with rfl | hnd'
               · exact hw
               · exact absurd hnd' (List.not_mem_nil nd)⟩
            (Or.inr fun nd hnd => by
              rcases List.mem_cons.mp hnd with rfl | hnd'
              · rfl
              · exact absurd hnd' (List.not_mem_nil nd))
            p h
          exact ⟨hw, hrun.1, hrun.2⟩
      · exact absurd h (by simp)

end NavGrid

/-- The claim C4 scenario grid: 10×10 cells of size 1 with the block
`(4,4)–(5,5)` marked unwalkable. -/
def scenarioGrid : NavGrid := (NavGrid.new 10 10 1).set_obstacle_rect 4 4 5 5

/-- The C4 scenario search succeeds (evaluated by the kernel: the full A* run
from the cell `(0,0)` center to the cell `(9,9)` center). -/
theorem scenario_isSome :
    (scenarioGrid.find_path (scenarioGrid.grid_to_world 0 0)
      (scenarioGrid.grid_to_world 9 9)).isSome = true := by decide

theorem scenario_blocked_cells (x y : ℕ) (hx4 : 4 ≤ x) (hx5 : x ≤ 5)
    (hy4 : 4 ≤ y) (hy5 : y ≤ 5) : scenarioGrid.is_walkable x y = false := by
  rw [show scenarioGrid = (NavGrid.new 10 10 1).set_obstacle_rect 4 4 5 5
    from rfl]
  rw [NavGrid.is_walkable_set_obstacle_rect, decide_eq_true ⟨hx4, hx5, hy4, hy5⟩]
  simp

/-- C4. Every waypoint of every path returned by `find_path` (on a grid with
positive cell size) converts under `world_to_grid` to a walkable cell; in
particular, on the 10×10 unit grid with cells `(4,4)–(5,5)` blocked, the
search from the `(0,0)` cell center to the `(9,9)` cell center returns a path
none of whose waypoints falls in the blocked rectangle. -/
theorem find_path_waypoints_walkable :
    (∀ (g : NavGrid) (s e : Vec3) (p : List Vec3), 0 < g.cell_size →
      g.find_path s e = some p →
      ∀ wp ∈ p, ∃ c : Cell, g.world_to_grid wp = some c ∧
        g.is_walkable c.1 c.2 = true)
    ∧ (∃ p, scenarioGrid.find_path (scenarioGrid.grid_to_world 0 0)
        (scenarioGrid.grid_to_world 9 9) = some p ∧
      ∀ wp ∈ p, ∀ c : Cell, scenarioGrid.world_to_grid wp = some c →
        ¬(4 ≤ c.1 ∧ c.1 ≤ 5 ∧ 4 ≤ c.2 ∧ c.2 ≤ 5)) := by
  have huniv : ∀ (g : NavGrid) (s e : Vec3) (p : List Vec3), 0 < g.cell_size →
      g.find_path s e = some p →
      ∀ wp ∈ p, ∃ c : Cell, g.world_to_grid wp = some c ∧
        g.is_walkable c.1 c.2 = true := by
    intro g s e p hcs h
    cases hws : g.world_to_grid s with
    | none =>
      unfold NavGrid.find_path at h
      rw [hws] at h
      simp at h
    | some sc =>
      obtain ⟨_, hall, _⟩ := NavGrid.find_path_sound g s e p sc hws h
      intro wp hwp
      obtain ⟨c, hcw, rfl⟩ := hall wp hwp
      obtain ⟨hx, hy⟩ := NavGrid.is_walkable_lt g c hcw
      exact ⟨c, NavGrid.world_to_grid_grid_to_world g c.1 c.2 hcs hx hy, hcw⟩
  refine ⟨huniv, (scenarioGrid.find_path _ _).get scenario_isSome,
    (Option.some_get scenario_isSome).symm, ?_⟩
  intro wp hwp c hc hrect
  obtain ⟨c0, hc0, hc0w⟩ := huniv scenarioGrid _ _ _ (by decide)
    (Option.some_get scenario_isSome).symm wp hwp
  rw [hc] at hc0
  injection hc0 with hc0
  subst hc0
  rw [scenario_blocked_cells c.1 c.2 hrect.1 hrect.2.1 hrect.2.2.1
    hrect.2.2.2] at hc0w
  exact absurd hc0w (by simp)

theorem find_path_waypoints_walkable_witness :
    0 < scenarioGrid.cell_size ∧
    ∃ p, scenarioGrid.find_path (scenarioGrid.grid_to_world 0 0)
        (scenarioGrid.grid_to_world 9 9) = some p ∧
      ∀ wp ∈ p, ∃ c : Cell, scenarioGrid.world_to_grid wp = some c ∧
        scenarioGrid.is_walkable c.1 c.2 = true :=
  ⟨by decide, (scenarioGrid.find_path _ _).get scenario_isSome,
   (Option.some_get scenario_isSome).symm,
   find_path_waypoints_walkable.1 scenarioGrid _ _ _ (by decide)
     (Option.some_get scenario_isSome).symm⟩

namespace NavGrid

/-- C10. Every successfully returned path is non-empty and starts exactly at
the world-space center of the start cell; when start and goal fall in the
same walkable cell, the result is exactly the one-element list holding that
cell's center. -/
theorem find_path_first_waypoint :
    (∀ (g : NavGrid) (s e : Vec3) (p : List Vec3) (sc : Cell),
      g.world_to_grid s = some sc → g.find_path s e = some p →
      p ≠ [] ∧ p.head? = some (g.grid_to_world sc.1 sc.2))
    ∧ (∀ (g : NavGrid) (s e : Vec3) (c : Cell),
      g.world_to_grid s = some c → g.world_to_grid e = some c →
      g.is_walkable c.1 c.2 = true →
      g.find_path s e = some [g.grid_to_world c.1 c.2]) := by
  constructor
  · intro g s e p sc hs h
    obtain ⟨_, _, hhead⟩ := find_path_sound g s e p sc hs h
    refine ⟨?_, hhead⟩
    intro hnil
    rw [hnil] at hhead
    exact absurd hhead (by simp)
  · intro g s e c hs he hw
    unfold find_path
    simp only [hs, he, hw, if_true]
    rw [show 8 * g.width * g.height + 2 = (8 * g.width * g.height + 1) + 1
      from rfl]
    rw [astarLoop]
    rw [show popMin [⟨c, (0, heuristicSq c c)⟩] =
      some (⟨c, (0, heuristicSq c c)⟩, []) from rfl]
    split
    · rename_i heq
      simp at heq
    · rename_i current rest heq
      injection heq with heq
      injection heq with h1 h2
      subst h1
      subst h2
      dsimp only
      rw [if_pos rfl]
      rfl

end NavGrid

theorem find_path_first_waypoint_witness :
    openQuad.find_path (openQuad.grid_to_world 0 0)
      (openQuad.grid_to_world 0 0) = some [openQuad.grid_to_world 0 0] ∧
    [openQuad.grid_to_world 0 0].head? = some (openQuad.grid_to_world 0 0) := by
  have h := NavGrid.find_path_first_waypoint.2 openQuad
    (openQuad.grid_to_world 0 0) (openQuad.grid_to_world 0 0) (0, 0)
    (by decide) (by decide) (by decide)
  exact ⟨h, (NavGrid.find_path_first_waypoint.1 openQuad _ _ _ (0, 0)
    (by decide) h).2⟩
